import Mathlib

/-!
Shallow embedding of `src/constrict.py` (the constrict video compressor).

The script compresses a video to a target size by looping: pick a video
bitrate, transcode, measure the produced file, and rescale the bitrate by
`factor = targetSizeBytes / afterSizeBytes` (damped by a flat 0.05 when the
attempt overshot the target) until `factor` lands in
`[1, 1 + tolerance/100]`, or abort once the bitrate falls below 1000 bps.

Numbers: Python floats are modelled as exact rationals (`ℚ`), Python ints as
`ℤ`/`ℕ`.  `round` is Python's round-half-to-even (`pyRound`).  The external
ffmpeg encoder is an opaque function `enc : ℤ → ℕ` from the requested video
bitrate to the size in bytes of the file it produces (the script derives the
resolution/framerate arguments deterministically from the bitrate and the
fixed source profile, so a deterministic encoder model is a function of the
bitrate alone, as in the spec).  A measured size of 0 makes the script
divide by zero (`factor = 100 / 0.0`), modelled as the `crashed` outcome.
-/

set_option maxRecDepth 10000

/-- Python's `round`: round half to even (`banker's rounding`), on exact
rationals. -/
def pyRound (q : ℚ) : ℤ :=
  if q - ⌊q⌋ < 1/2 then ⌊q⌋
  else if (1:ℚ)/2 < q - ⌊q⌋ then ⌊q⌋ + 1
  else if ⌊q⌋ % 2 = 0 then ⌊q⌋ else ⌊q⌋ + 1

/-- Python's `x or default` applied to the parsed `-t` option
(`args.tolerance`), which is `None` when absent and otherwise an `int`:
any falsy value (`None` or `0`) is replaced by the default. -/
def pyOr (x : Option ℤ) (d : ℤ) : ℤ :=
  match x with
  | none => d
  | some v => if v = 0 then d else v

/-- `tolerance = args.tolerance or 10` (line 374 of `src/constrict.py`). -/
def toleranceOf (arg : Option ℤ) : ℤ := pyOr arg 10

/-- State of the convergence loop of `src/constrict.py` (lines 475-540):
the current `targetVideoBitrate` (a Python float after the `*= 0.99`),
the correction `factor`, the `attempt` counter, and the measured size
`afterSizeBytes` of the most recent attempt (0 before the first attempt;
the loop starts with `factor = 0`, so the first iteration always runs). -/
structure LoopState where
  bitrate : ℚ
  factor : ℚ
  attempt : ℕ
  lastSize : ℕ
  deriving DecidableEq, Repr

/-- The `while` condition (line 477):
`(factor > 1.0 + (tolerance / 100)) or (factor < 1)`. -/
def loopCond (tol : ℤ) (f : ℚ) : Bool :=
  decide (1 + (tol:ℚ)/100 < f) || decide (f < 1)

/-- The bitrate computed at the top of an iteration (line 479):
`round(targetVideoBitrate * (factor or 1))`. -/
def nextBitrate (s : LoopState) : ℤ :=
  pyRound (s.bitrate * (if s.factor = 0 then 1 else s.factor))

/-- Lines 527-534: `percentOfTarget = (100 / targetSizeBytes) * afterSizeBytes`,
`factor = 100 / percentOfTarget`, and the overshoot damping
`if percentOfTarget > 100: factor -= 0.05`. -/
def postFactor (target : ℤ) (after : ℕ) : ℚ :=
  if 100 < 100 / (target:ℚ) * (after:ℚ) then
    100 / (100 / (target:ℚ) * (after:ℚ)) - 1/20
  else
    100 / (100 / (target:ℚ) * (after:ℚ))

/-- Result of one iteration of the loop body. -/
inductive StepRes where
  | aborted (b : ℤ)
  | crashed (b : ℤ)
  | next (b : ℤ) (s : LoopState)
  deriving DecidableEq, Repr

/-- One iteration of the loop body (lines 478-534): recompute the bitrate;
abort when it drops below 1000 bps (line 481); otherwise transcode, measure
`afterSizeBytes`, and compute the next `factor`.  An empty output file makes
the Python script raise `ZeroDivisionError` at `factor = 100 / 0.0`
(`crashed`). -/
def stepLoop (enc : ℤ → ℕ) (target : ℤ) (s : LoopState) : StepRes :=
  if nextBitrate s < 1000 then .aborted (nextBitrate s)
  else if enc (nextBitrate s) = 0 then .crashed (nextBitrate s)
  else
    .next (nextBitrate s)
      { bitrate := (nextBitrate s : ℚ)
        factor := postFactor target (enc (nextBitrate s))
        attempt := s.attempt + 1
        lastSize := enc (nextBitrate s) }

/-- Observable events of a run: creating/removing the temporary streamable
copy, the audio-bitrate probe encode (`get_audio_bitrate`), and a transcode
attempt at a given bitrate. -/
inductive Ev where
  | createTemp
  | removeTemp
  | audioProbe
  | transcode (b : ℤ)
  deriving DecidableEq, Repr

/-- How the convergence loop ended. -/
inductive LoopOut where
  | converged (s : LoopState)
  | aborted (b : ℤ)
  | crashed
  deriving DecidableEq, Repr

/-- Fuel-indexed run of the convergence loop, returning the list of
transcode events and the outcome (`none` = the fuel ran out with the loop
still going; the Python loop itself has no iteration bound). -/
def loopRun (enc : ℤ → ℕ) (target tol : ℤ) : ℕ → LoopState → List Ev × Option LoopOut
  | 0, s =>
      if loopCond tol s.factor then ([], none) else ([], some (.converged s))
  | fuel + 1, s =>
      if loopCond tol s.factor then
        match stepLoop enc target s with
        | .aborted b => ([], some (.aborted b))
        | .crashed b => ([Ev.transcode b], some .crashed)
        | .next b s' =>
            let r := loopRun enc target tol fuel s'
            (Ev.transcode b :: r.1, r.2)
      else ([], some (.converged s))

/-- The loop terminates (converges, aborts or crashes) within some number of
iterations. -/
def loopTerminates (enc : ℤ → ℕ) (target tol : ℤ) (s : LoopState) : Prop :=
  ∃ fuel, ((loopRun enc target tol fuel s).2).isSome

example :
    (loopRun (fun _ => 95) 100 10 2 ⟨2000, 0, 0, 0⟩).2 =
      some (.converged ⟨2000, 20/19, 1, 95⟩) := by with_unfolding_all decide

example : loopRun (fun _ => 1) 100 10 1 ⟨500, 0, 0, 0⟩ = ([], some (.aborted 500)) := by
  with_unfolding_all decide

/-- The value of `factor` right after an attempt that measured `after`
bytes, written in terms of the target: `target/after`, minus the flat `0.05`
damping when the attempt overshot. -/
def dampedFactor (target : ℤ) (after : ℕ) : ℚ :=
  if (target : ℚ) < (after : ℕ) then (target : ℚ) / after - 1/20
  else (target : ℚ) / after

lemma postFactor_eq (target : ℤ) (after : ℕ) (ht : 0 < target) (ha : 0 < after) :
    postFactor target after = dampedFactor target after := by
  have ht' : (0:ℚ) < (target : ℚ) := by exact_mod_cast ht
  have ha' : (0:ℚ) < (after : ℚ) := by exact_mod_cast ha
  have hval : 100 / (100 / (target:ℚ) * (after:ℚ)) = (target:ℚ) / after := by
    rw [div_mul_eq_mul_div, div_div_eq_mul_div,
      mul_div_mul_left (target:ℚ) (after:ℚ) (by norm_num : (100:ℚ) ≠ 0)]
  have hcond : (100 < 100 / (target:ℚ) * (after:ℚ)) ↔ ((target:ℚ) < (after:ℚ)) := by
    rw [div_mul_eq_mul_div, lt_div_iff₀ ht']
    constructor
    · intro h; nlinarith
    · intro h; nlinarith
  unfold postFactor dampedFactor
  by_cases h : (target:ℚ) < (after:ℚ)
  · rw [if_pos (hcond.mpr h), if_pos h, hval]
  · rw [if_neg (fun hc => h (hcond.mp hc)), if_neg h, hval]

lemma stepLoop_next {enc : ℤ → ℕ} {target : ℤ} {s : LoopState} {b : ℤ}
    {s' : LoopState} (ht : 0 < target) (h : stepLoop enc target s = .next b s') :
    0 < s'.lastSize ∧ s'.factor = dampedFactor target s'.lastSize := by
  unfold stepLoop at h
  by_cases h1 : nextBitrate s < 1000
  · rw [if_pos h1] at h; exact absurd h (by simp)
  · rw [if_neg h1] at h
    by_cases h2 : enc (nextBitrate s) = 0
    · rw [if_pos h2] at h; exact absurd h (by simp)
    · rw [if_neg h2] at h
      have hs' := (StepRes.next.injEq _ _ _ _).mp h
      rw [← hs'.2]
      refine ⟨Nat.pos_of_ne_zero h2, ?_⟩
      exact postFactor_eq target _ ht (Nat.pos_of_ne_zero h2)

/-- Unpacking a `false` loop condition: the factor is in the accepted band. -/
lemma loopCond_false {tol : ℤ} {f : ℚ} (h : loopCond tol f = false) :
    1 ≤ f ∧ f ≤ 1 + (tol:ℚ)/100 := by
  unfold loopCond at h
  rw [Bool.or_eq_false_iff, decide_eq_false_iff_not, decide_eq_false_iff_not] at h
  exact ⟨not_lt.mp h.2, not_lt.mp h.1⟩

/-- Invariant carried by the loop: either no attempt has been measured yet
(`factor = 0`, the initial state) or `factor` is exactly the damped ratio of
the most recent measured size. -/
def FactorInv (target : ℤ) (s : LoopState) : Prop :=
  s.factor = 0 ∨ (0 < s.lastSize ∧ s.factor = dampedFactor target s.lastSize)

lemma band_of_converged {target tol : ℤ} {s : LoopState} (ht : 0 < target)
    (hinv : FactorInv target s) (hcond : loopCond tol s.factor = false) :
    0 < s.lastSize ∧ (s.lastSize : ℚ) ≤ (target : ℚ) ∧
      (target : ℚ) ≤ (s.lastSize : ℚ) * (1 + (tol:ℚ)/100) := by
  obtain ⟨h1, h2⟩ := loopCond_false hcond
  rcases hinv with h0 | ⟨hls, hf⟩
  · rw [h0] at h1; norm_num at h1
  · have hls' : (0:ℚ) < (s.lastSize : ℚ) := by exact_mod_cast hls
    unfold dampedFactor at hf
    by_cases hlt : (target:ℚ) < (s.lastSize : ℚ)
    · rw [if_pos hlt] at hf
      have : (target:ℚ) / s.lastSize < 1 := (div_lt_one hls').mpr hlt
      rw [hf] at h1; linarith
    · rw [if_neg hlt] at hf
      refine ⟨hls, not_lt.mp hlt, ?_⟩
      rw [hf] at h2
      have := (div_le_iff₀ hls').mp h2
      linarith

lemma loopRun_converged_band (enc : ℤ → ℕ) (target tol : ℤ) (ht : 0 < target) :
    ∀ (fuel : ℕ) (s sF : LoopState), FactorInv target s →
      (loopRun enc target tol fuel s).2 = some (.converged sF) →
      0 < sF.lastSize ∧ (sF.lastSize : ℚ) ≤ (target : ℚ) ∧
        (target : ℚ) ≤ (sF.lastSize : ℚ) * (1 + (tol:ℚ)/100) := by
  intro fuel
  induction fuel with
  | zero =>
    intro s sF hinv hrun
    unfold loopRun at hrun
    by_cases hcond : loopCond tol s.factor
    · rw [if_pos hcond] at hrun; exact absurd hrun (by simp)
    · rw [if_neg hcond] at hrun
      simp only [Option.some.injEq, LoopOut.converged.injEq] at hrun
      rw [← hrun]
      exact band_of_converged ht hinv (Bool.of_not_eq_true hcond)
  | succ n ih =>
    intro s sF hinv hrun
    unfold loopRun at hrun
    by_cases hcond : loopCond tol s.factor
    · rw [if_pos hcond] at hrun
      rcases hstep : stepLoop enc target s with b | b | ⟨b, s'⟩ <;> rw [hstep] at hrun
      · exact absurd hrun (by simp)
      · exact absurd hrun (by simp)
      · obtain ⟨hpos, hfac⟩ := stepLoop_next ht hstep
        exact ih s' sF (Or.inr ⟨hpos, hfac⟩) hrun
    · rw [if_neg hcond] at hrun
      simp only [Option.some.injEq, LoopOut.converged.injEq] at hrun
      rw [← hrun]
      exact band_of_converged ht hinv (Bool.of_not_eq_true hcond)

/-- C1 counterexample: a run with a constant 95-byte encoder and target 100
bytes converges on the first attempt with a measured size of 95 bytes, which
is strictly below the target — so the accepted band claimed by the spec,
`[targetSizeBytes, targetSizeBytes * (1 + toleranceFraction)]`, does not
contain the accepted output. -/
theorem C1_band_counterexample :
    (loopRun (fun _ => 95) 100 10 2 ⟨2000, 0, 0, 0⟩).2 =
        some (.converged ⟨2000, 20/19, 1, 95⟩) ∧
      ¬ ((100:ℚ) ≤ ((95:ℕ) : ℚ)) := by
  constructor
  · with_unfolding_all decide
  · with_unfolding_all decide

/-- C1 (amended): when the convergence loop of `src/constrict.py` exits by
convergence, the last attempt's measured output size lies in the band
`[targetSizeBytes / (1 + tolerance/100), targetSizeBytes]` — at or below the
target, and within tolerance below it (stated multiplied out:
`target <= size * (1 + tolerance/100)` and `size <= target`). -/
theorem C1_converged_in_band (enc : ℤ → ℕ) (target tol : ℤ) (fuel : ℕ)
    (s0 sF : LoopState) (ht : 0 < target) (h0 : s0.factor = 0)
    (hrun : (loopRun enc target tol fuel s0).2 = some (.converged sF)) :
    (target : ℚ) ≤ (sF.lastSize : ℚ) * (1 + (tol:ℚ)/100) ∧
      (sF.lastSize : ℚ) ≤ (target : ℚ) := by
  have h := loopRun_converged_band enc target tol ht fuel s0 sF (Or.inl h0) hrun
  exact ⟨h.2.2, h.2.1⟩

/-- C1 witness: a concrete run with a constant 98-byte encoder and target
100 converges at size 98, inside the amended band. -/
theorem C1_converged_in_band_witness :
    (loopRun (fun _ => 98) 100 10 2 ⟨2000, 0, 0, 0⟩).2 =
        some (.converged ⟨2000, 50/49, 1, 98⟩) ∧
      ((100:ℤ) : ℚ) ≤ (((98:ℕ)) : ℚ) * (1 + ((10:ℤ):ℚ)/100) ∧
        (((98:ℕ)) : ℚ) ≤ ((100:ℤ) : ℚ) := by
  have hrun : (loopRun (fun _ => 98) 100 10 2 ⟨2000, 0, 0, 0⟩).2 =
      some (.converged ⟨2000, 50/49, 1, 98⟩) := by with_unfolding_all decide
  refine ⟨hrun, ?_⟩
  exact C1_converged_in_band (fun _ => 98) 100 10 2 ⟨2000, 0, 0, 0⟩
    ⟨2000, 50/49, 1, 98⟩ (by norm_num) rfl hrun

/-- C2: when the convergence loop exits by convergence, the accepted file
never exceeds the target size: an overshooting attempt gets
`factor = target/size - 0.05 < 1` and the loop keeps going. -/
theorem C2_no_overshoot_accepted (enc : ℤ → ℕ) (target tol : ℤ) (fuel : ℕ)
    (s0 sF : LoopState) (ht : 0 < target) (h0 : s0.factor = 0)
    (hrun : (loopRun enc target tol fuel s0).2 = some (.converged sF)) :
    (sF.lastSize : ℤ) ≤ target := by
  have h := loopRun_converged_band enc target tol ht fuel s0 sF (Or.inl h0) hrun
  exact_mod_cast h.2.1

/-- C2 witness: a run with a constant 100-byte encoder and target 100
converges with measured size 100 ≤ 100. -/
theorem C2_no_overshoot_accepted_witness :
    (loopRun (fun _ => 100) 100 10 2 ⟨2000, 0, 0, 0⟩).2 =
        some (.converged ⟨2000, 1, 1, 100⟩) ∧
      (((100:ℕ)) : ℤ) ≤ (100:ℤ) := by
  have hrun : (loopRun (fun _ => 100) 100 10 2 ⟨2000, 0, 0, 0⟩).2 =
      some (.converged ⟨2000, 1, 1, 100⟩) := by with_unfolding_all decide
  exact ⟨hrun, C2_no_overshoot_accepted (fun _ => 100) 100 10 2 ⟨2000, 0, 0, 0⟩
    ⟨2000, 1, 1, 100⟩ (by norm_num) rfl hrun⟩

/-- Encoder model that always produces a 50-byte file regardless of the
requested bitrate (a legitimate deterministic function of the bitrate). -/
def encConstFifty : ℤ → ℕ := fun _ => 50

/-- States visited by the loop under `encConstFifty` with target 100: the
bitrate is an integer at least 1000 and the factor is 0 (initially) or 2
(after any attempt: 50 bytes is half the 100-byte target). -/
def CycleInv (s : LoopState) : Prop :=
  (∃ n : ℤ, s.bitrate = (n : ℚ) ∧ 1000 ≤ n) ∧ (s.factor = 0 ∨ s.factor = 2)

lemma pyRound_intCast (n : ℤ) : pyRound ((n : ℤ) : ℚ) = n := by
  unfold pyRound
  rw [Int.floor_intCast]
  rw [if_pos (by norm_num)]

lemma cycle_step {s : LoopState} (h : CycleInv s) :
    loopCond 10 s.factor = true ∧
      ∃ s', stepLoop encConstFifty 100 s = .next (nextBitrate s) s' ∧ CycleInv s' := by
  obtain ⟨⟨n, hb, hn⟩, hf⟩ := h
  have hnb : nextBitrate s = n ∨ nextBitrate s = 2 * n := by
    rcases hf with hf | hf
    · left
      unfold nextBitrate
      rw [hf, if_pos rfl, hb, mul_one, pyRound_intCast]
    · right
      unfold nextBitrate
      rw [hf, if_neg (by norm_num), hb]
      rw [show ((n:ℚ) * 2 = ((2 * n : ℤ) : ℚ)) from by push_cast; ring, pyRound_intCast]
  have hge : 1000 ≤ nextBitrate s := by
    rcases hnb with h' | h' <;> rw [h'] <;> omega
  have hcond : loopCond 10 s.factor = true := by
    rcases hf with hf | hf <;> rw [hf] <;> with_unfolding_all decide
  have henc : encConstFifty (nextBitrate s) = 50 := rfl
  have hstep : stepLoop encConstFifty 100 s =
      .next (nextBitrate s)
        { bitrate := ((nextBitrate s : ℤ) : ℚ), factor := postFactor 100 50,
          attempt := s.attempt + 1, lastSize := 50 } := by
    unfold stepLoop
    rw [if_neg (by omega), henc, if_neg (by omega)]
  refine ⟨hcond, _, hstep, ⟨⟨nextBitrate s, rfl, hge⟩, Or.inr ?_⟩⟩
  show postFactor 100 50 = 2
  with_unfolding_all decide

lemma cycle_no_exit : ∀ (fuel : ℕ) (s : LoopState), CycleInv s →
    (loopRun encConstFifty 100 10 fuel s).2 = none := by
  intro fuel
  induction fuel with
  | zero =>
    intro s hs
    obtain ⟨hcond, -⟩ := cycle_step hs
    unfold loopRun
    rw [if_pos hcond]
  | succ n ih =>
    intro s hs
    obtain ⟨hcond, s', hstep, hs'⟩ := cycle_step hs
    unfold loopRun
    rw [if_pos hcond, hstep]
    exact ih s' hs'

/-- C3 counterexample: with the deterministic encoder model `encConstFifty`
(output size is a constant function of the requested bitrate), target 100
bytes and tolerance 10, the convergence loop never terminates: `factor`
is 2 forever (50 bytes is always half the target), the bitrate doubles each
iteration and never drops below the 1000 bps floor, so the run neither
converges nor aborts. -/
theorem C3_termination_counterexample :
    ¬ loopTerminates encConstFifty 100 10 ⟨2000, 0, 0, 0⟩ := by
  rintro ⟨fuel, hsome⟩
  rw [cycle_no_exit fuel ⟨2000, 0, 0, 0⟩ ?_] at hsome
  · exact absurd hsome (by simp)
  · exact ⟨⟨2000, by norm_num, by norm_num⟩, Or.inl rfl⟩

/-- C3 (amended): when the convergence loop terminates it does so in one of
exactly the outcomes the spec names — converged with
`factor ∈ [1, 1 + tolerance/100]`, aborted below the 1000 bps bitrate
floor, or crashed on a zero-size output — but termination itself is NOT
guaranteed for every deterministic encoder model
(`C3_termination_counterexample` exhibits a model that loops forever). -/
theorem C3_terminating_outcomes (enc : ℤ → ℕ) (target tol : ℤ) (fuel : ℕ)
    (s : LoopState) (out : LoopOut)
    (hrun : (loopRun enc target tol fuel s).2 = some out) :
    (∃ sF, out = .converged sF ∧
        1 ≤ sF.factor ∧ sF.factor ≤ 1 + (tol:ℚ)/100) ∨
      (∃ b, out = .aborted b ∧ b < 1000) ∨ out = .crashed := by
  induction fuel generalizing s with
  | zero =>
    unfold loopRun at hrun
    by_cases hcond : loopCond tol s.factor
    · rw [if_pos hcond] at hrun; exact absurd hrun (by simp)
    · rw [if_neg hcond] at hrun
      simp only [Option.some.injEq] at hrun
      obtain ⟨h1, h2⟩ := loopCond_false (Bool.of_not_eq_true hcond)
      exact Or.inl ⟨s, hrun.symm, h1, h2⟩
  | succ n ih =>
    unfold loopRun at hrun
    by_cases hcond : loopCond tol s.factor
    · rw [if_pos hcond] at hrun
      rcases hstep : stepLoop enc target s with b | b | ⟨b, s'⟩ <;> rw [hstep] at hrun
      · simp only [Option.some.injEq] at hrun
        refine Or.inr (Or.inl ⟨b, hrun.symm, ?_⟩)
        unfold stepLoop at hstep
        by_cases h1 : nextBitrate s < 1000
        · rw [if_pos h1] at hstep
          cases hstep
          exact h1
        · rw [if_neg h1] at hstep
          by_cases h2 : enc (nextBitrate s) = 0 <;> simp [h2] at hstep
      · simp only [Option.some.injEq] at hrun
        exact Or.inr (Or.inr hrun.symm)
      · exact ih s' hrun
    · rw [if_neg hcond] at hrun
      simp only [Option.some.injEq] at hrun
      obtain ⟨h1, h2⟩ := loopCond_false (Bool.of_not_eq_true hcond)
      exact Or.inl ⟨s, hrun.symm, h1, h2⟩

/-- C3 witness: a proportional encoder run that converges; its outcome falls
under the converged disjunct with `factor = 1 ∈ [1, 1.1]`. -/
theorem C3_terminating_outcomes_witness :
    (loopRun (fun _ => 99) 100 10 2 ⟨2000, 0, 0, 0⟩).2 =
        some (.converged ⟨2000, 100/99, 1, 99⟩) ∧
      ((∃ sF, LoopOut.converged ⟨2000, 100/99, 1, 99⟩ = .converged sF ∧
          1 ≤ sF.factor ∧ sF.factor ≤ 1 + ((10:ℤ):ℚ)/100) ∨
        (∃ b, LoopOut.converged ⟨2000, 100/99, 1, 99⟩ = .aborted b ∧ b < 1000) ∨
          LoopOut.converged ⟨2000, 100/99, 1, 99⟩ = LoopOut.crashed) := by
  have hrun : (loopRun (fun _ => 99) 100 10 2 ⟨2000, 0, 0, 0⟩).2 =
      some (.converged ⟨2000, 100/99, 1, 99⟩) := by with_unfolding_all decide
  exact ⟨hrun, C3_terminating_outcomes (fun _ => 99) 100 10 2 ⟨2000, 0, 0, 0⟩
    (.converged ⟨2000, 100/99, 1, 99⟩) hrun⟩

/-- C8: whenever an iteration of the convergence loop computes a target
video bitrate below 1000 bps (line 481 of `src/constrict.py`), the run
aborts via `sys.exit` with a message (a non-zero exit status in Python):
the outcome is `aborted` at that bitrate and no transcode happens in this
or any later iteration (the event trace of the remaining run is empty). -/
theorem C8_bitrate_floor_aborts (enc : ℤ → ℕ) (target tol : ℤ) (fuel : ℕ)
    (s : LoopState) (hcond : loopCond tol s.factor = true)
    (hb : nextBitrate s < 1000) :
    loopRun enc target tol (fuel + 1) s = ([], some (.aborted (nextBitrate s))) := by
  have hstep : stepLoop enc target s = .aborted (nextBitrate s) := by
    unfold stepLoop
    rw [if_pos hb]
  unfold loopRun
  rw [if_pos hcond, hstep]

/-- C8 witness: a state with bitrate 500 and no measured attempt yet
(`factor = 0`, so the while condition holds and `round(500 * 1) = 500`)
immediately aborts with no transcode event. -/
theorem C8_bitrate_floor_aborts_witness :
    loopCond 10 ((0:ℚ)) = true ∧
      loopRun (fun _ => 1) 100 10 3 ⟨500, 0, 0, 0⟩ = ([], some (.aborted 500)) := by
  have h := C8_bitrate_floor_aborts (fun _ => 1) 100 10 2 ⟨500, 0, 0, 0⟩
    (by with_unfolding_all decide) (by with_unfolding_all decide)
  refine ⟨by with_unfolding_all decide, ?_⟩
  rw [show nextBitrate ⟨500, 0, 0, 0⟩ = 500 from by with_unfolding_all decide] at h
  exact h

/-- The four bytes of the `'moov'` marker (UTF-8 `b'moov'`). -/
def moovBytes : List ℕ := [109, 111, 111, 118]

/-- The four bytes of the `'mdat'` marker (UTF-8 `b'mdat'`). -/
def mdatBytes : List ℕ := [109, 100, 97, 116]

/-- Index of the first occurrence of `pat` as a contiguous subsequence of
`l` (Python `bytes.index` / the `in` operator returns `some`/`none`). -/
def subIndex (pat : List ℕ) : List ℕ → Option ℕ
  | [] => if pat.isPrefixOf ([] : List ℕ) then some 0 else none
  | a :: rest =>
      if pat.isPrefixOf (a :: rest) then some 0
      else (subIndex pat rest).map (· + 1)

/-- `is_streamable` (lines 195-222 of `src/constrict.py`), as a function of
the bytes returned by `head` on the file: if `'moov'` is absent, streamable
iff `'mdat'` is also absent; if `'moov'` is present and `'mdat'` absent,
streamable; if both are present, streamable iff the first `'moov'` occurs
before the first `'mdat'`. -/
def is_streamable (fileHead : List ℕ) : Bool :=
  match subIndex moovBytes fileHead with
  | none => (subIndex mdatBytes fileHead) = none
  | some moovIndex =>
      match subIndex mdatBytes fileHead with
      | none => true
      | some mdatIndex => moovIndex < mdatIndex

/-- A prefix containing only `'mdat'` (at offset 4), no `'moov'`. -/
def headOnlyMdat : List ℕ := [0, 0, 0, 0] ++ mdatBytes ++ [0, 0]

/-- A prefix with `'moov'` at byte offset 10 and `'mdat'` at offset 50. -/
def headMoovThenMdat : List ℕ :=
  List.replicate 10 0 ++ moovBytes ++ List.replicate 36 0 ++ mdatBytes ++ [0, 0]

/-- A prefix with `'mdat'` at byte offset 5 and `'moov'` at offset 40. -/
def headMdatThenMoov : List ℕ :=
  List.replicate 5 0 ++ mdatBytes ++ List.replicate 31 0 ++ moovBytes ++ [0, 0]

/-- C5 counterexample: the spec's first literal case is wrong on the code.
A prefix containing `'mdat'` but no `'moov'` makes `is_streamable` return
`False` (the `moov` atom is not in the head, so the file is treated as
needing the faststart remux), so the claimed triple of outcomes
(true, true, false) does not hold. -/
theorem C5_literal_cases_counterexample :
    ¬ (is_streamable headOnlyMdat = true ∧
        is_streamable headMoovThenMdat = true ∧
        is_streamable headMdatThenMoov = false) := by
  intro h
  have := h.1
  revert this
  with_unfolding_all decide

/-- C5 (amended): the three literal prefix cases evaluate to
(false, true, false): only-`'mdat'` is NOT streamable; `'moov'` at offset
10 before `'mdat'` at offset 50 is streamable; `'mdat'` at offset 5 before
`'moov'` at offset 40 is not streamable. -/
theorem C5_literal_cases :
    is_streamable headOnlyMdat = false ∧
      is_streamable headMoovThenMdat = true ∧
      is_streamable headMdatThenMoov = false := by
  refine ⟨?_, ?_, ?_⟩ <;> with_unfolding_all decide

/-- The `<= 30` fps bitrate→resolution table of `get_res_preset`
(lines 56-65): `(threshold kbps, width, height)`, in the insertion order the
Python dict is iterated in (descending thresholds). -/
def bitrateResMap30 : List (ℕ × ℕ × ℕ) :=
  [(12000, 3840, 2160), (6000, 2560, 1440), (1800, 1920, 1080),
   (1024, 1280, 720), (512, 640, 480), (276, 640, 360),
   (150, 320, 240), (0, 192, 144)]

/-- The `> 30` fps bitrate→resolution table (lines 66-75). -/
def bitrateResMap60 : List (ℕ × ℕ × ℕ) :=
  [(18000, 3840, 2160), (9000, 2560, 1440), (3000, 1920, 1080),
   (1800, 1280, 720), (750, 640, 480), (276, 640, 360),
   (150, 320, 240), (0, 192, 144)]

/-- The loop guard of `get_res_preset` (line 82):
`bitrateKbps >= bitrateLowerBound and sourcePixels >= presetPixels`, with
`bitrateKbps = bitrate / 1000` in float (exact) division. -/
def presetPred (bitrate : ℚ) (sourcePixels : ℕ) (e : ℕ × ℕ × ℕ) : Bool :=
  decide ((e.1 : ℚ) ≤ bitrate / 1000) && decide (e.2.1 * e.2.2 ≤ sourcePixels)

/-- The preset entry `get_res_preset` stops at: the first entry of the
table (for the frame rate tier) whose bitrate threshold is at most
`bitrate/1000` kbps and whose pixel count does not exceed the source's. -/
def res_preset_find (bitrate : ℚ) (sourceWidth sourceHeight framerate : ℕ) :
    Option (ℕ × ℕ × ℕ) :=
  (if framerate ≤ 30 then bitrateResMap30 else bitrateResMap60).find?
    (presetPred bitrate (sourceWidth * sourceHeight))

/-- `get_res_preset` (lines 49-85): returns the selected preset's height,
or -1 meaning "use the source resolution". -/
def get_res_preset (bitrate : ℚ) (sourceWidth sourceHeight framerate : ℕ) : ℤ :=
  match res_preset_find bitrate sourceWidth sourceHeight framerate with
  | some e => (e.2.2 : ℤ)
  | none => -1

example : get_res_preset 1800000 1080 1920 30 = 1080 := by with_unfolding_all decide
example : get_res_preset 2000000 1920 1080 30 = 1080 := by with_unfolding_all decide
example : get_res_preset 100000000 100 100 30 = -1 := by with_unfolding_all decide

/-- The resolution-selection step of the main loop (lines 486-508): take
the preset height; if it is not -1, set `targetHeight` to it, derive
`targetWidth = int(((width / (height / targetHeight) + 1) // 2) * 2)`
(an even width preserving aspect against the new height), and, when the
source is portrait (`width < height`), swap `targetWidth` and
`targetHeight`. -/
def targetDims (bitrate : ℚ) (width height framerate : ℕ) : ℤ × ℤ :=
  match res_preset_find bitrate width height framerate with
  | some e =>
      let targetHeight : ℤ := (e.2.2 : ℤ)
      let scalingFactor : ℚ := (height : ℚ) / (targetHeight : ℚ)
      let targetWidth : ℤ := (⌊((width : ℚ) / scalingFactor + 1) / 2⌋) * 2
      if width < height then (targetHeight, targetWidth)
      else (targetWidth, targetHeight)
  | none => ((width : ℤ), (height : ℤ))

/-- C6: on a portrait 1080×1920 source with a bitrate selecting the 1080p
preset (1800 kbps, ≤30 fps tier), the code produces `(1080, 608)` — NOT the
`(1080, 1920)` the spec demands.  The width is scaled by the
height-scaling factor (1920/1080) to 608 and then swapped with the height,
yielding a squashed landscape frame for a portrait source; the long edge of
the output (1080) does not match the original long edge (1920). -/
theorem C6_portrait_square_eval :
    res_preset_find 1800000 1080 1920 30 = some (1800, 1920, 1080) ∧
      targetDims 1800000 1080 1920 30 = (1080, 608) ∧
      targetDims 1800000 1080 1920 30 ≠ (1080, 1920) := by
  refine ⟨?_, ?_, ?_⟩ <;> with_unfolding_all decide

/-- `find?` over a list whose values are antitone (each later element has
at most the pixel count of each earlier one) returns an antitone value when
the predicate is weakened: if every element satisfying `q` also satisfies
`p`, the element `find? q` stops at cannot have more pixels than the one
`find? p` stops at. -/
lemma find?_px_antitone {α : Type} (px : α → ℕ) (p q : α → Bool)
    (himp : ∀ a, q a = true → p a = true) :
    ∀ (l : List α), l.Pairwise (fun a b => px b ≤ px a) →
      ∀ a b, l.find? p = some a → l.find? q = some b → px b ≤ px a := by
  intro l
  induction l with
  | nil => intro _ a b h; simp at h
  | cons x t ih =>
    intro hp a b hfp hfq
    rw [List.pairwise_cons] at hp
    by_cases hq : q x = true
    · rw [List.find?_cons_of_pos _ (himp x hq)] at hfp
      rw [List.find?_cons_of_pos _ hq] at hfq
      simp only [Option.some.injEq] at hfp hfq
      rw [← hfp, ← hfq]
    · rw [List.find?_cons_of_neg _ (by simp [hq])] at hfq
      by_cases hpx : p x = true
      · rw [List.find?_cons_of_pos _ hpx] at hfp
        simp only [Option.some.injEq] at hfp
        rw [← hfp]
        exact hp.1 b (List.mem_of_find?_eq_some hfq)
      · rw [List.find?_cons_of_neg _ (by simp [hpx])] at hfp
        exact ih hp.2 a b hfp hfq

lemma presetPred_mono {b1 b2 : ℚ} (hle : b2 ≤ b1) (src : ℕ) :
    ∀ e, presetPred b2 src e = true → presetPred b1 src e = true := by
  intro e h
  unfold presetPred at h ⊢
  rw [Bool.and_eq_true, decide_eq_true_iff, decide_eq_true_iff] at h
  rw [Bool.and_eq_true, decide_eq_true_iff, decide_eq_true_iff]
  refine ⟨le_trans h.1 ?_, h.2⟩
  linarith

lemma bitrateResMaps_antitone :
    bitrateResMap30.Pairwise (fun a b : ℕ × ℕ × ℕ => b.2.1 * b.2.2 ≤ a.2.1 * a.2.2) ∧
      bitrateResMap60.Pairwise (fun a b : ℕ × ℕ × ℕ => b.2.1 * b.2.2 ≤ a.2.1 * a.2.2) := by
  constructor <;> with_unfolding_all decide

/-- C7: (monotonicity) for a fixed frame-rate tier and fixed source
resolution, lowering the candidate bitrate can only lower (or keep) the
pixel count of the preset `get_res_preset` selects; and (no upscale) any
selected preset has at most the source's pixel count — the loop guard
`sourcePixels >= presetPixels` enforces it. -/
theorem C7_res_preset_monotone_no_upscale :
    (∀ (framerate w h : ℕ) (b1 b2 : ℚ) (p1 p2 : ℕ × ℕ × ℕ), b2 ≤ b1 →
        res_preset_find b1 w h framerate = some p1 →
        res_preset_find b2 w h framerate = some p2 →
        p2.2.1 * p2.2.2 ≤ p1.2.1 * p1.2.2) ∧
      (∀ (framerate w h : ℕ) (b : ℚ) (p : ℕ × ℕ × ℕ),
        res_preset_find b w h framerate = some p → p.2.1 * p.2.2 ≤ w * h) := by
  constructor
  · intro framerate w h b1 b2 p1 p2 hle h1 h2
    unfold res_preset_find at h1 h2
    by_cases hfr : framerate ≤ 30
    · rw [if_pos hfr] at h1 h2
      exact find?_px_antitone _ _ _ (presetPred_mono hle (w * h))
        bitrateResMap30 bitrateResMaps_antitone.1 p1 p2 h1 h2
    · rw [if_neg hfr] at h1 h2
      exact find?_px_antitone _ _ _ (presetPred_mono hle (w * h))
        bitrateResMap60 bitrateResMaps_antitone.2 p1 p2 h1 h2
  · intro framerate w h b p hfind
    unfold res_preset_find at hfind
    have hpred : presetPred b (w * h) p = true := List.find?_some hfind
    unfold presetPred at hpred
    rw [Bool.and_eq_true, decide_eq_true_iff, decide_eq_true_iff] at hpred
    exact hpred.2

/-- C7 witness: on a 1920×1080 source at 30 fps, 2000 kbps selects the
1080p preset and 1000 kbps selects the 480p preset: 640·480 ≤ 1920·1080
pixels, and the 1080p preset does not exceed the source's pixels. -/
theorem C7_res_preset_monotone_no_upscale_witness :
    res_preset_find 2000000 1920 1080 30 = some (1800, 1920, 1080) ∧
      res_preset_find 1000000 1920 1080 30 = some (512, 640, 480) ∧
      (640 * 480 : ℕ) ≤ 1920 * 1080 ∧ (1920 * 1080 : ℕ) ≤ 1920 * 1080 := by
  have h1 : res_preset_find 2000000 1920 1080 30 = some (1800, 1920, 1080) := by
    with_unfolding_all decide
  have h2 : res_preset_find 1000000 1920 1080 30 = some (512, 640, 480) := by
    with_unfolding_all decide
  refine ⟨h1, h2, ?_, ?_⟩
  · exact C7_res_preset_monotone_no_upscale.1 30 1920 1080 2000000 1000000
      (1800, 1920, 1080) (512, 640, 480) (by norm_num) h1 h2
  · exact C7_res_preset_monotone_no_upscale.2 30 1920 1080 2000000
      (1800, 1920, 1080) h1

/-- The probed environment of one run of the script: whether the original
input is already streamable, the byte size of the working input (the
original when streamable, the remuxed copy otherwise), the probed duration,
the audio bitrate reported by `get_audio_bitrate` (an `int`; 0 when no
parseable bitrate was found — the function never returns `None`), and the
opaque encoder. -/
structure Env where
  streamable : Bool
  origSize : ℕ
  remuxSize : ℕ
  duration : ℚ
  audioBitrate : ℤ
  enc : ℤ → ℕ

/-- `beforeSizeBytes = os.stat(fileInput).st_size` (line 404), taken after
the conditional remux switched `fileInput` to the streamable copy. -/
def beforeSizeOf (env : Env) : ℕ :=
  if env.streamable then env.origSize else env.remuxSize

/-- How the whole run ended. -/
inductive MainOut where
  | earlyExit
  | completed (s : LoopState)
  | abortedFloor (b : ℤ)
  | crashed
  | fuelOut
  deriving DecidableEq, Repr

/-- The top-level control flow of `src/constrict.py` (lines 371-548) as a
trace of observable events plus an outcome:
`targetSizeBytes = target_size MiB`; a non-streamable input is remuxed to a
temporary streamable copy (`createTemp`, lines 393-400); the
already-meets-target guard `beforeSizeBytes <= targetSizeBytes` exits
at line 406 before anything else runs; otherwise the audio-bitrate probe
encode runs (`audioProbe`, line 439), the initial bitrate estimate is
`round(targetSizeBits / durationSeconds)`, minus the audio bitrate when
that leaves at least 1000 bps, times 0.99, and the convergence loop runs.
Only the path that falls out of the loop by convergence removes the
temporary streamable copy (`removeTemp`, lines 544-545); the `sys.exit`
paths do not. -/
def mainRun (env : Env) (targetMiB : ℤ) (tolArg : Option ℤ) (fuel : ℕ) :
    List Ev × MainOut :=
  let tolerance := toleranceOf tolArg
  let targetSizeBytes := targetMiB * 1024 * 1024
  let ev0 : List Ev := if env.streamable then [] else [Ev.createTemp]
  if (beforeSizeOf env : ℤ) ≤ targetSizeBytes then (ev0, .earlyExit)
  else
    let tvb0 := pyRound ((targetSizeBytes * 8 : ℤ) / env.duration)
    let tvb1 := if 1000 ≤ tvb0 - env.audioBitrate then tvb0 - env.audioBitrate
      else tvb0
    let r := loopRun env.enc targetSizeBytes tolerance fuel
      ⟨(tvb1 : ℚ) * (99/100), 0, 0, 0⟩
    match r.2 with
    | some (.converged s) =>
        (ev0 ++ Ev.audioProbe :: r.1 ++
          (if env.streamable then [] else [Ev.removeTemp]), .completed s)
    | some (.aborted b) => (ev0 ++ Ev.audioProbe :: r.1, .abortedFloor b)
    | some .crashed => (ev0 ++ Ev.audioProbe :: r.1, .crashed)
    | none => (ev0 ++ Ev.audioProbe :: r.1, .fuelOut)

/-- C9: when the working input already meets the target
(`beforeSizeBytes <= targetSizeBytes`), the run exits early with the
informational message and its whole event trace is just the conditional
remux: no audio-bitrate probe encode and no transcode ever happens. -/
theorem C9_early_exit_no_encode (env : Env) (targetMiB : ℤ) (tolArg : Option ℤ)
    (fuel : ℕ) (hsize : (beforeSizeOf env : ℤ) ≤ targetMiB * 1024 * 1024) :
    mainRun env targetMiB tolArg fuel =
      ((if env.streamable then [] else [Ev.createTemp]), .earlyExit) := by
  unfold mainRun
  rw [if_pos hsize]

/-- C9 witness: a streamable 1000-byte input against a 1 MiB target exits
early with an empty event trace. -/
theorem C9_early_exit_no_encode_witness :
    ((beforeSizeOf ⟨true, 1000, 0, 1, 0, fun _ => 1⟩ : ℤ) ≤ 1 * 1024 * 1024) ∧
      mainRun ⟨true, 1000, 0, 1, 0, fun _ => 1⟩ 1 none 5 = ([], .earlyExit) := by
  refine ⟨by with_unfolding_all decide, ?_⟩
  have h := C9_early_exit_no_encode ⟨true, 1000, 0, 1, 0, fun _ => 1⟩ 1 none 5
    (by with_unfolding_all decide)
  simpa using h

/-- An environment whose input is not streamable (so a temporary streamable
copy is created) and whose remuxed copy already meets the 1 MiB target: the
run takes the early `sys.exit` at line 407. -/
def envLeakEarly : Env := ⟨false, 5000000, 1000, 1, 0, fun _ => 1⟩

/-- An environment whose input is not streamable and whose duration is so
long (10^6 s for a 1 MiB target) that the initial bitrate estimate (8 bps)
is below the 1000 bps floor: the run takes the abort `sys.exit` at
line 484. -/
def envLeakAbort : Env := ⟨false, 0, 2097152, 1000000, 0, fun _ => 1⟩

/-- C4 is violated by the code: on the early-exit path and on the
bitrate-floor abort path, the run creates the temporary streamable copy
(`createTemp`) but its event trace contains no `removeTemp` — the
`sys.exit` calls at lines 407 and 484 of `src/constrict.py` skip the
cleanup that only lines 544-545 (after successful convergence) perform.
The temporary file is therefore NOT deleted on every exit path. -/
theorem C4_temp_leak_eval :
    mainRun envLeakEarly 1 none 5 = ([Ev.createTemp], .earlyExit) ∧
      mainRun envLeakAbort 1 none 5 =
        ([Ev.createTemp, Ev.audioProbe], .abortedFloor 8) ∧
      Ev.removeTemp ∉ (mainRun envLeakEarly 1 none 5).1 ∧
      Ev.removeTemp ∉ (mainRun envLeakAbort 1 none 5).1 := by
  refine ⟨?_, ?_, ?_, ?_⟩ <;> with_unfolding_all decide

/-- For contrast with `C4_temp_leak_eval`: the successful-convergence path
does remove the temporary streamable copy (lines 544-545).  Same
environment as `envLeakAbort` but with a 100 s duration, so the initial
estimate is `round(round(8388608/100) * 0.99) = 83047` bps and the constant
encoder lands exactly on target at the first attempt. -/
theorem mainRun_success_removes_temp :
    mainRun ⟨false, 0, 2097152, 100, 0, fun _ => 1048576⟩ 1 none 5 =
      ([Ev.createTemp, Ev.audioProbe, Ev.transcode 83047, Ev.removeTemp],
        .completed ⟨83047, 1, 1, 1048576⟩) := by
  with_unfolding_all rfl

/-- C10: passing `-t 0` yields the default tolerance 10 — Python's
`args.tolerance or 10` replaces every falsy value, including an explicit
`0`, by the default — and no argument value at all can make the resolved
tolerance zero, so a zero-width tolerance band cannot be requested through
the CLI. -/
theorem C10_explicit_zero_tolerance :
    toleranceOf (some 0) = 10 ∧
      ∀ arg : Option ℤ, toleranceOf arg < 0 ∨ 0 < toleranceOf arg := by
  refine ⟨rfl, ?_⟩
  intro arg
  match arg with
  | none => right; norm_num [toleranceOf, pyOr]
  | some v =>
      by_cases hv : v = 0
      · right; rw [hv]; norm_num [toleranceOf, pyOr]
      · have : toleranceOf (some v) = v := by
          simp [toleranceOf, pyOr, hv]
        rw [this]
        omega
